import Mathlib

/-!
Verification of the Beast HTTP/1 incremental parser core.

Bytes are modelled as natural numbers (octet values).  The wire-format
engine (`basic_parser`) is not present in the repository sources, only its
specialization `message_parser` and the digit table are; the engine is
therefore modelled from the specification, while the `message_parser`
body-sink bridge and the digit table are embedded from the source files
`include/beast/http/message_parser.hpp` and
`modules/beast_core/text/LexicalCast.cpp`.
-/

/-- Error kinds of the parser, from the specification's error-handling design. -/
inductive Err where
  | badStartLine
  | badFieldName
  | badFieldValue
  | badVersion
  | badNumber
  | badContentLength
  | headerTooLarge
  | chunkSizeTooLarge
  | unexpectedBodyEnd
  | sinkRejected
deriving DecidableEq, Repr

/-- Body framing modes: fixed content-length, chunked, or read-to-end-of-stream. -/
inductive Framing where
  | fixedLen (n : Nat)
  | chunked
  | toEof
deriving DecidableEq, Repr

/-- Modelled from the spec: the phases of the wire-format state machine of the
missing `basic_parser` engine.  `bodyFixed k` means `k + 1` body bytes remain;
`chunkBody k` means `k + 1` bytes of the current chunk remain; `chunkCRLF`
expects the CRLF that terminates a chunk's data. -/
inductive Phase where
  | startLine
  | fieldLines
  | bodyFixed (k : Nat)
  | chunkHeader
  | chunkBody (k : Nat)
  | chunkCRLF
  | trailerLines
  | bodyToEof
  | complete
  | errored (e : Err)
deriving DecidableEq, Repr

/-- Structured message under construction, mirroring the member assignments of
`message_parser::on_begin_request`, `on_begin_response` and `on_field`:
`url`, `method`, `version`, `status`, `reason`, and the ordered field list. -/
structure Msg where
  method : List Nat
  url : List Nat
  status : Nat
  reason : List Nat
  version : Nat
  fields : List (List Nat × List Nat)
deriving DecidableEq, Repr

/-- Empty message, as default-constructed by the parser. -/
def Msg.empty : Msg := ⟨[], [], 0, [], 0, []⟩

/-- Body sink state: the bytes committed so far, the number of times
`finish()` was called, and the committed-byte count at the first `finish()`. -/
structure Sink where
  data : List Nat
  finishCount : Nat
  finishedAt : Option Nat
deriving DecidableEq, Repr

/-- Fresh sink, as created by `on_begin_body` (`r_.emplace(m_)`). -/
def Sink.empty : Sink := ⟨[], 0, none⟩

/-- Commit body bytes to the sink, as `message_parser::on_body` does via
`r_->commit(buffer_copy(r_->prepare(data.size()), data))`. -/
def Sink.commitBytes (s : Sink) (bs : List Nat) : Sink :=
  ⟨s.data ++ bs, s.finishCount, s.finishedAt⟩

/-- Call `finish()` on the sink, as `message_parser::on_end_body` does. -/
def Sink.finish (s : Sink) : Sink :=
  ⟨s.data, s.finishCount + 1,
    if s.finishCount = 0 then some s.data.length else s.finishedAt⟩

/-- Modelled from the spec: the complete state of the missing `basic_parser`
engine composed with the `message_parser` layer. -/
structure PState where
  isRequest : Bool
  phase : Phase
  msg : Msg
  sink : Sink
deriving DecidableEq, Repr

/-- Transition to the absorbing errored state. -/
def toErr (s : PState) (e : Err) : PState :=
  ⟨s.isRequest, .errored e, s.msg, s.sink⟩

/-- Initial parser state for a request or response parser. -/
def initState (isReq : Bool) : PState :=
  ⟨isReq, .startLine, Msg.empty, Sink.empty⟩

/-- Outcome reported by a consume call, derived from the parser phase. -/
inductive Outcome where
  | needsMore
  | messageComplete
  | error (e : Err)
deriving DecidableEq, Repr

/-- Outcome of a parser state. -/
def outcomeOf (s : PState) : Outcome :=
  match s.phase with
  | .complete => .messageComplete
  | .errored e => .error e
  | _ => .needsMore

/-- Index of the first LF (byte 10) in a buffer, if any. -/
def findLF : List Nat → Option Nat
  | [] => none
  | b :: rest => if b = 10 then some 0 else (findLF rest).map (· + 1)

/-- Result of scanning a buffer for one CRLF-terminated line. -/
inductive LineRes where
  | more
  | bad (n : Nat)
  | line (l : List Nat) (n : Nat)
deriving DecidableEq, Repr

/-- Modelled from the spec: scan for one complete line.  A line is complete
once its LF is present; a line whose LF is not preceded by CR is malformed
(bare-LF tolerance is off by default).  `n` counts the bytes of the line
including its terminator. -/
def takeLine (buf : List Nat) : LineRes :=
  match findLF buf with
  | none => .more
  | some i =>
      if 1 ≤ i ∧ buf.get? (i - 1) = some 13 then
        .line (buf.take (i - 1)) (i + 1)
      else
        .bad (i + 1)

/-- Decimal digit test for a byte. -/
def isDigitB (c : Nat) : Bool := 48 ≤ c && c ≤ 57

/-- Optional-whitespace test (space or horizontal tab). -/
def isOWSB (c : Nat) : Bool := c = 32 || c = 9

/-- Token-character test per the HTTP field-name grammar. -/
def isTcharB (c : Nat) : Bool :=
  isDigitB c || (65 ≤ c && c ≤ 90) || (97 ≤ c && c ≤ 122) ||
    c = 33 || c = 35 || c = 36 || c = 37 || c = 38 || c = 39 ||
    c = 42 || c = 43 || c = 45 || c = 46 || c = 94 || c = 95 ||
    c = 96 || c = 124 || c = 126

/-- Lowercase an ASCII byte, for case-insensitive field-name comparison. -/
def lowerB (c : Nat) : Nat := if 65 ≤ c ∧ c ≤ 90 then c + 32 else c

/-- Case-insensitive equality of byte strings. -/
def ciEq (a b : List Nat) : Bool := a.map lowerB = b.map lowerB

/-- Strip optional whitespace from both ends of a byte string. -/
def stripOWS (l : List Nat) : List Nat :=
  ((l.dropWhile isOWSB).reverse.dropWhile isOWSB).reverse

/-- Split a byte string at every space (byte 32). -/
def splitWords : List Nat → List (List Nat)
  | [] => [[]]
  | b :: rest =>
      let r := splitWords rest
      if b = 32 then [] :: r
      else match r with
        | [] => [[b]]
        | w :: ws => (b :: w) :: ws

/-- Split a byte string at every comma (byte 44). -/
def splitCommas : List Nat → List (List Nat)
  | [] => [[]]
  | b :: rest =>
      let r := splitCommas rest
      if b = 44 then [] :: r
      else match r with
        | [] => [[b]]
        | w :: ws => (b :: w) :: ws

/-- Parse a nonempty all-digit byte string as a decimal number. -/
def parseDec (l : List Nat) : Option Nat :=
  if l ≠ [] ∧ l.all isDigitB then
    some (l.foldl (fun acc c => 10 * acc + (c - 48)) 0)
  else none

/-- Hexadecimal digit test for a byte. -/
def isHexB (c : Nat) : Bool :=
  isDigitB c || (97 ≤ c && c ≤ 102) || (65 ≤ c && c ≤ 70)

/-- Value of a hexadecimal digit byte. -/
def hexVal (c : Nat) : Nat :=
  if 48 ≤ c ∧ c ≤ 57 then c - 48
  else if 97 ≤ c ∧ c ≤ 102 then c - 87
  else if 65 ≤ c ∧ c ≤ 70 then c - 55
  else 0

/-- Modelled from the spec: parse a chunk-size line `chunk-size [ ";" chunk-ext ]`
of the chunk grammar; the extension is ignored (`on_chunk` is a no-op). -/
def parseChunkSize (l : List Nat) : Option Nat :=
  let ds := l.takeWhile isHexB
  let rest := l.dropWhile isHexB
  if ds ≠ [] ∧ (rest = [] ∨ rest.head? = some 59) then
    some (ds.foldl (fun acc c => 16 * acc + hexVal c) 0)
  else none

/-- Byte string of the field name `transfer-encoding`. -/
def teName : List Nat := [116, 114, 97, 110, 115, 102, 101, 114, 45, 101, 110, 99, 111, 100, 105, 110, 103]

/-- Byte string of the field name `content-length`. -/
def clName : List Nat := [99, 111, 110, 116, 101, 110, 116, 45, 108, 101, 110, 103, 116, 104]

/-- Byte string of the transfer-coding token `chunked`. -/
def chunkedTok : List Nat := [99, 104, 117, 110, 107, 101, 100]

/-- Values of all Content-Length fields, in order. -/
def clValues (fields : List (List Nat × List Nat)) : List (List Nat) :=
  (fields.filter (fun f => ciEq f.1 clName)).map (fun f => f.2)

/-- Modelled from the spec: the last transfer-coding token of all
Transfer-Encoding field values, comma-split and whitespace-stripped. -/
def lastCoding (fields : List (List Nat × List Nat)) : Option (List Nat) :=
  (((fields.filter (fun f => ciEq f.1 teName)).map (fun f => f.2)).foldr
    (fun v acc => (splitCommas v).map stripOWS ++ acc) []).getLast?

/-- Modelled from the spec: whether the Transfer-Encoding header selects
chunked framing (its last coding token is `chunked`). -/
def isChunkedTE (fields : List (List Nat × List Nat)) : Bool :=
  match lastCoding fields with
  | some t => ciEq t chunkedTok
  | none => false

/-- Modelled from the spec: the body-framing decision made once at the
header-complete transition.  Chunked transfer-encoding takes precedence and
any content-length is then ignored; otherwise all Content-Length values must
be well-formed and numerically equal; with no length, a request has an empty
body and a response reads to end of stream. -/
def framingOf (isReq : Bool) (fields : List (List Nat × List Nat)) : Except Err Framing :=
  if isChunkedTE fields then .ok .chunked
  else
    match clValues fields with
    | [] => if isReq then .ok (.fixedLen 0) else .ok .toEof
    | v :: vs =>
        match parseDec v with
        | none => .error .badContentLength
        | some n =>
            if vs.all (fun w => parseDec w = some n) then .ok (.fixedLen n)
            else .error .badContentLength

/-- Parse `HTTP/major.minor`; the version is encoded as `10 * major + minor`
to match the `int version` passed to `on_begin_request`. -/
def parseVersionTok (l : List Nat) : Option Nat :=
  match l with
  | [72, 84, 84, 80, 47, a, 46, b] =>
      if isDigitB a ∧ isDigitB b then some (10 * (a - 48) + (b - 48)) else none
  | _ => none

/-- Modelled from the spec: parse the request line `method SP target SP HTTP-version`. -/
def parseRequestLine (l : List Nat) : Except Err (List Nat × List Nat × Nat) :=
  match splitWords l with
  | [meth, tgt, ver] =>
      if meth ≠ [] ∧ tgt ≠ [] then
        match parseVersionTok ver with
        | some v => .ok (meth, tgt, v)
        | none => .error .badVersion
      else .error .badStartLine
  | _ => .error .badStartLine

/-- Split a byte string at the first space, if any. -/
def splitFirstSpace (l : List Nat) : Option (List Nat × List Nat) :=
  match findIdx32 l with
  | none => none
  | some i => some (l.take i, l.drop (i + 1))
where
  /-- Index of the first space byte. -/
  findIdx32 : List Nat → Option Nat
    | [] => none
    | b :: rest => if b = 32 then some 0 else (findIdx32 rest).map (· + 1)

/-- Modelled from the spec: parse the response status line
`HTTP-version SP status SP reason`. -/
def parseResponseLine (l : List Nat) : Except Err (Nat × List Nat × Nat) :=
  match splitFirstSpace l with
  | none => .error .badStartLine
  | some (verTok, rest) =>
      match parseVersionTok verTok with
      | none => .error .badVersion
      | some v =>
          match splitFirstSpace rest with
          | none => .error .badStartLine
          | some (st, reason) =>
              match parseDec st with
              | none => .error .badStartLine
              | some code => .ok (code, reason, v)

/-- Split a field line at the first colon (byte 58), if any. -/
def splitColon (l : List Nat) : Option (List Nat × List Nat) :=
  match findIdx58 l with
  | none => none
  | some i => some (l.take i, l.drop (i + 1))
where
  /-- Index of the first colon byte. -/
  findIdx58 : List Nat → Option Nat
    | [] => none
    | b :: rest => if b = 58 then some 0 else (findIdx58 rest).map (· + 1)

/-- Modelled from the spec: parse one field line `field-name ":" OWS value OWS`;
the name must be a nonempty token, the value is whitespace-stripped. -/
def parseField (l : List Nat) : Except Err (List Nat × List Nat) :=
  match splitColon l with
  | none => .error .badFieldName
  | some (nm, rest) =>
      if nm ≠ [] ∧ nm.all isTcharB then .ok (nm, stripOWS rest)
      else .error .badFieldName

/-- Whether a line begins with optional whitespace (obsolete folding). -/
def isFoldStart (l : List Nat) : Bool :=
  match l with
  | b :: _ => isOWSB b
  | [] => false

/-- Modelled from the spec: enter the body phase once framing is decided.
A zero fixed length finishes the sink at once and completes the message. -/
def enterBody (fr : Framing) (s : PState) : PState :=
  match fr with
  | .chunked => ⟨s.isRequest, .chunkHeader, s.msg, s.sink⟩
  | .fixedLen 0 => ⟨s.isRequest, .complete, s.msg, s.sink.finish⟩
  | .fixedLen (k + 1) => ⟨s.isRequest, .bodyFixed k, s.msg, s.sink⟩
  | .toEof => ⟨s.isRequest, .bodyToEof, s.msg, s.sink⟩

/-- Error kind reported for a malformed line in a given phase. -/
def lineErr (p : Phase) : Err :=
  match p with
  | .startLine => .badStartLine
  | .chunkHeader => .badNumber
  | _ => .badFieldValue

/-- Modelled from the spec: react to one complete line according to the
current phase, applying the `message_parser` hook effects from the source
(`on_begin_request`, `on_begin_response`, `on_field`, `on_end_body`). -/
def onLine (s : PState) (l : List Nat) : PState :=
  match s.phase with
  | .startLine =>
      if s.isRequest then
        match parseRequestLine l with
        | .ok (meth, tgt, v) =>
            ⟨s.isRequest, .fieldLines,
              ⟨meth, tgt, s.msg.status, s.msg.reason, v, s.msg.fields⟩, s.sink⟩
        | .error e => toErr s e
      else
        match parseResponseLine l with
        | .ok (code, reason, v) =>
            ⟨s.isRequest, .fieldLines,
              ⟨s.msg.method, s.msg.url, code, reason, v, s.msg.fields⟩, s.sink⟩
        | .error e => toErr s e
  | .fieldLines =>
      if l = [] then
        match framingOf s.isRequest s.msg.fields with
        | .ok fr => enterBody fr s
        | .error e => toErr s e
      else if isFoldStart l then toErr s .badFieldValue
      else
        match parseField l with
        | .ok nv =>
            ⟨s.isRequest, .fieldLines,
              ⟨s.msg.method, s.msg.url, s.msg.status, s.msg.reason, s.msg.version,
                s.msg.fields ++ [nv]⟩, s.sink⟩
        | .error e => toErr s e
  | .chunkHeader =>
      match parseChunkSize l with
      | some 0 => ⟨s.isRequest, .trailerLines, s.msg, s.sink⟩
      | some (k + 1) => ⟨s.isRequest, .chunkBody k, s.msg, s.sink⟩
      | none => toErr s .badNumber
  | .trailerLines =>
      if l = [] then ⟨s.isRequest, .complete, s.msg, s.sink.finish⟩
      else if isFoldStart l then toErr s .badFieldValue
      else
        match parseField l with
        | .ok nv =>
            ⟨s.isRequest, .trailerLines,
              ⟨s.msg.method, s.msg.url, s.msg.status, s.msg.reason, s.msg.version,
                s.msg.fields ++ [nv]⟩, s.sink⟩
        | .error e => toErr s e
  | _ => s

/-- Step of a line-oriented phase: wait for a complete line, then react. -/
def lineStep (s : PState) (buf : List Nat) : Option (PState × Nat) :=
  match takeLine buf with
  | .more => none
  | .bad n => some (toErr s (lineErr s.phase), n)
  | .line l n => some (onLine s l, n)

/-- Commit one fixed-length body byte; the last byte finishes the sink. -/
def commitFixed (s : PState) (k : Nat) (b : Nat) : PState :=
  match k with
  | 0 => ⟨s.isRequest, .complete, s.msg, (s.sink.commitBytes [b]).finish⟩
  | j + 1 => ⟨s.isRequest, .bodyFixed j, s.msg, s.sink.commitBytes [b]⟩

/-- Commit one chunk-data byte; the last byte of a chunk awaits its CRLF. -/
def commitChunk (s : PState) (k : Nat) (b : Nat) : PState :=
  match k with
  | 0 => ⟨s.isRequest, .chunkCRLF, s.msg, s.sink.commitBytes [b]⟩
  | j + 1 => ⟨s.isRequest, .chunkBody j, s.msg, s.sink.commitBytes [b]⟩

/-- Commit one close-delimited body byte. -/
def commitEof (s : PState) (b : Nat) : PState :=
  ⟨s.isRequest, .bodyToEof, s.msg, s.sink.commitBytes [b]⟩

/-- Modelled from the spec: consume one complete grammar token (a line, a
body byte, or a chunk-terminating CRLF) from the front of the window, or
report that more data is needed.  Terminal phases consume nothing. -/
def stepTok (s : PState) (buf : List Nat) : Option (PState × Nat) :=
  match s.phase with
  | .startLine => lineStep s buf
  | .fieldLines => lineStep s buf
  | .chunkHeader => lineStep s buf
  | .trailerLines => lineStep s buf
  | .bodyFixed k =>
      match buf with
      | [] => none
      | b :: _ => some (commitFixed s k b, 1)
  | .chunkBody k =>
      match buf with
      | [] => none
      | b :: _ => some (commitChunk s k b, 1)
  | .bodyToEof =>
      match buf with
      | [] => none
      | b :: _ => some (commitEof s b, 1)
  | .chunkCRLF =>
      match buf with
      | [] => none
      | b :: rest =>
          if b = 13 then
            match rest with
            | [] => none
            | c :: _ =>
                if c = 10 then some (⟨s.isRequest, .chunkHeader, s.msg, s.sink⟩, 2)
                else some (toErr s .badNumber, 2)
          else some (toErr s .badNumber, 1)
  | .complete => none
  | .errored _ => none

/-- Fuel-bounded greedy token-consumption loop of the engine. -/
def consumeGo : Nat → PState → List Nat → PState × List Nat
  | 0, s, buf => (s, buf)
  | f + 1, s, buf =>
      match stepTok s buf with
      | none => (s, buf)
      | some (s1, n) => consumeGo f s1 (buf.drop n)

/-- Modelled from the spec: resolution of a stuck state at end of stream.
A body phase still expecting bytes becomes `unexpected-body-end`; a
close-delimited body finishes the sink and completes. -/
def finalizeEof (s : PState) : PState :=
  match s.phase with
  | .bodyFixed _ => toErr s .unexpectedBodyEnd
  | .chunkBody _ => toErr s .unexpectedBodyEnd
  | .chunkHeader => toErr s .unexpectedBodyEnd
  | .chunkCRLF => toErr s .unexpectedBodyEnd
  | .trailerLines => toErr s .unexpectedBodyEnd
  | .bodyToEof => ⟨s.isRequest, .complete, s.msg, s.sink.finish⟩
  | _ => s

/-- Modelled from the spec: the single driving operation of the engine.
Consumes as many complete tokens as are present, then — when the caller
signals end of stream — resolves the stuck state.  Returns the new state
and the unconsumed remainder of the window. -/
def consume (s : PState) (buf : List Nat) (eof : Bool) : PState × List Nat :=
  let r := consumeGo (buf.length + 1) s buf
  if eof then (finalizeEof r.1, r.2) else r

/-- Incremental driver: each fragment is appended to the retained unconsumed
tail and fed with `eof = false`; end of stream is then signalled once with an
empty final window. -/
def feedFrags (s : PState) (tail : List Nat) : List (List Nat) → PState × List Nat
  | [] => consume s tail true
  | f :: fs =>
      let r := consume s (tail ++ f) false
      feedFrags r.1 r.2 fs

/-- Concatenation of a list of fragments. -/
def joinFrags (frags : List (List Nat)) : List Nat := frags.foldr (· ++ ·) []

/-- Call log of a body sink (the `Body::reader` of `message_parser`): the
sizes passed to `prepare`, the sizes passed to `commit`, and the bytes
transferred into the sink. -/
structure SinkCalls where
  preps : List Nat
  commits : List Nat
  data : List Nat
deriving DecidableEq, Repr

/-- Record a `prepare(n)` call on the sink. -/
def SinkCalls.prep (sk : SinkCalls) (n : Nat) : SinkCalls :=
  ⟨sk.preps ++ [n], sk.commits, sk.data⟩

/-- Record a `commit(n)` call on the sink for bytes the caller wrote directly
into the prepared window. -/
def SinkCalls.commitN (sk : SinkCalls) (n : Nat) : SinkCalls :=
  ⟨sk.preps, sk.commits ++ [n], sk.data⟩

/-- Record a `commit` of bytes copied into the prepared window. -/
def SinkCalls.commitData (sk : SinkCalls) (bs : List Nat) : SinkCalls :=
  ⟨sk.preps, sk.commits ++ [bs.length], sk.data ++ bs⟩

/-- State of `message_parser` during the body phase: the engine's
remaining-length counter and consumed-byte count (modelled from the spec,
since `basic_parser` is not among the sources), the `maybe_begin_body` flag,
and the body sink. -/
structure MP where
  remain : Nat
  consumed : Nat
  bodyBegun : Bool
  sink : SinkCalls
deriving DecidableEq, Repr

/-- Modelled from the spec: `basic_parser::consume(n)` bookkeeping — the
remaining-length counter decreases by `n` and the consumed count grows by `n`. -/
def MP.engineConsume (p : MP) (n : Nat) : MP :=
  ⟨p.remain - n, p.consumed + n, p.bodyBegun, p.sink⟩

/-- Begin the body phase once, as `maybe_begin_body` / `on_begin_body` do. -/
def MP.maybeBeginBody (p : MP) : MP :=
  if p.bodyBegun then p else ⟨p.remain, p.consumed, true, p.sink⟩

/-- Embedding of `message_parser::copy(dynabuf)`: take
`n = min(dynabuf.size(), remain())`; when `n` is zero return at once,
otherwise `prepare(n)` on the sink, copy, consume `n` from the engine and
the dynamic buffer, and `commit(n)`. -/
def MP.copy (p : MP) (dynabuf : List Nat) : MP × List Nat :=
  let p1 := p.maybeBeginBody
  let n := min dynabuf.length p1.remain
  if n = 0 then (p1, dynabuf)
  else
    let p2 : MP := ⟨p1.remain, p1.consumed, p1.bodyBegun, p1.sink.prep n⟩
    let p3 : MP := p2.engineConsume n
    (⟨p3.remain, p3.consumed, p3.bodyBegun, p3.sink.commitData (dynabuf.take n)⟩,
      dynabuf.drop n)

/-- Embedding of `message_parser::prepare(dynabuf, limit)` (preconditions
`limit > 0` and `remain() > 0`): requests a writable window of
`min(remain(), limit)` bytes from the sink and returns its size. -/
def MP.prepare (p : MP) (limit : Nat) : MP × Nat :=
  let p1 := p.maybeBeginBody
  let n := min p1.remain limit
  (⟨p1.remain, p1.consumed, p1.bodyBegun, p1.sink.prep n⟩, n)

/-- Embedding of `message_parser::commit(n)` (precondition `n <= remain()`):
commits `n` caller-written bytes to the sink and consumes `n` on the engine. -/
def MP.commit (p : MP) (n : Nat) : MP :=
  MP.engineConsume ⟨p.remain, p.consumed, p.bodyBegun, p.sink.commitN n⟩ n

/-- Embedding of `message_parser::on_prepare_body(limit)`: requests a sink
window of `clamp(remain(), limit)` bytes, where `clamp` is the saturating
minimum of `beast/core/detail/clamp.hpp`. -/
def MP.onPrepareBody (p : MP) (limit : Nat) : MP × Nat :=
  let n := min p.remain limit
  (⟨p.remain, p.consumed, p.bodyBegun, p.sink.prep n⟩, n)

/-- Embedding of the 256-entry digit table
`LexicalCastUtilities::s_digitTable` of `LexicalCast.cpp`. -/
def s_digitTable : List Nat :=
  [0xFF, 0xFF, 0xFF, 0xFF, 0xFF, 0xFF, 0xFF, 0xFF,
   0xFF, 0xFF, 0xFF, 0xFF, 0xFF, 0xFF, 0xFF, 0xFF,
   0xFF, 0xFF, 0xFF, 0xFF, 0xFF, 0xFF, 0xFF, 0xFF,
   0xFF, 0xFF, 0xFF, 0xFF, 0xFF, 0xFF, 0xFF, 0xFF,
   0xFF, 0xFF, 0xFF, 0xFF, 0xFF, 0xFF, 0xFF, 0xFF,
   0xFF, 0xFF, 0xFF, 0xFF, 0xFF, 0xFF, 0xFF, 0xFF,
   0x00, 0x01, 0x02, 0x03, 0x04, 0x05, 0x06, 0x07,
   0x08, 0x09, 0xFF, 0xFF, 0xFF, 0xFF, 0xFF, 0xFF,
   0xFF, 0xFF, 0xFF, 0xFF, 0xFF, 0xFF, 0xFF, 0xFF,
   0xFF, 0xFF, 0xFF, 0xFF, 0xFF, 0xFF, 0xFF, 0xFF,
   0xFF, 0xFF, 0xFF, 0xFF, 0xFF, 0xFF, 0xFF, 0xFF,
   0xFF, 0xFF, 0xFF, 0xFF, 0xFF, 0xFF, 0xFF, 0xFF,
   0xFF, 0xFF, 0xFF, 0xFF, 0xFF, 0xFF, 0xFF, 0xFF,
   0xFF, 0xFF, 0xFF, 0xFF, 0xFF, 0xFF, 0xFF, 0xFF,
   0xFF, 0xFF, 0xFF, 0xFF, 0xFF, 0xFF, 0xFF, 0xFF,
   0xFF, 0xFF, 0xFF, 0xFF, 0xFF, 0xFF, 0xFF, 0xFF,
   0xFF, 0xFF, 0xFF, 0xFF, 0xFF, 0xFF, 0xFF, 0xFF,
   0xFF, 0xFF, 0xFF, 0xFF, 0xFF, 0xFF, 0xFF, 0xFF,
   0xFF, 0xFF, 0xFF, 0xFF, 0xFF, 0xFF, 0xFF, 0xFF,
   0xFF, 0xFF, 0xFF, 0xFF, 0xFF, 0xFF, 0xFF, 0xFF,
   0xFF, 0xFF, 0xFF, 0xFF, 0xFF, 0xFF, 0xFF, 0xFF,
   0xFF, 0xFF, 0xFF, 0xFF, 0xFF, 0xFF, 0xFF, 0xFF,
   0xFF, 0xFF, 0xFF, 0xFF, 0xFF, 0xFF, 0xFF, 0xFF,
   0xFF, 0xFF, 0xFF, 0xFF, 0xFF, 0xFF, 0xFF, 0xFF,
   0xFF, 0xFF, 0xFF, 0xFF, 0xFF, 0xFF, 0xFF, 0xFF,
   0xFF, 0xFF, 0xFF, 0xFF, 0xFF, 0xFF, 0xFF, 0xFF,
   0xFF, 0xFF, 0xFF, 0xFF, 0xFF, 0xFF, 0xFF, 0xFF,
   0xFF, 0xFF, 0xFF, 0xFF, 0xFF, 0xFF, 0xFF, 0xFF,
   0xFF, 0xFF, 0xFF, 0xFF, 0xFF, 0xFF, 0xFF, 0xFF,
   0xFF, 0xFF, 0xFF, 0xFF, 0xFF, 0xFF, 0xFF, 0xFF,
   0xFF, 0xFF, 0xFF, 0xFF, 0xFF, 0xFF, 0xFF, 0xFF,
   0xFF, 0xFF, 0xFF, 0xFF, 0xFF, 0xFF, 0xFF, 0xFF]

/-- Finding an LF is stable under appending bytes. -/
theorem findLF_append {a : List Nat} {i : Nat} (b : List Nat) (h : findLF a = some i) :
    findLF (a ++ b) = some i := by
  induction a generalizing i with
  | nil => simp [findLF] at h
  | cons x rest ih =>
      simp only [findLF, List.cons_append] at h ⊢
      by_cases hx : x = 10
      · simpa [hx] using h
      · simp only [hx, if_false, Option.map_eq_some'] at h ⊢
        obtain ⟨j, hj, rfl⟩ := h
        exact ⟨j, ih hj, rfl⟩

/-- Index of the first LF is inside the buffer. -/
theorem findLF_lt {a : List Nat} {i : Nat} (h : findLF a = some i) : i < a.length := by
  induction a generalizing i with
  | nil => simp [findLF] at h
  | cons x rest ih =>
      simp only [findLF] at h
      by_cases hx : x = 10
      · simp only [hx, if_true, if_pos] at h
        simp only [Option.some.injEq] at h
        simp only [List.length_cons]
        omega
      · simp only [hx, if_false, Option.map_eq_some'] at h
        obtain ⟨j, hj, rfl⟩ := h
        have := ih hj
        simp only [List.length_cons]
        omega

/-- Scanning a complete line is stable under appending bytes, and the line
consumes between one byte and the whole buffer. -/
theorem takeLine_line_stable {buf l : List Nat} {n : Nat} (ext : List Nat)
    (h : takeLine buf = .line l n) :
    takeLine (buf ++ ext) = .line l n ∧ 1 ≤ n ∧ n ≤ buf.length := by
  cases hf : findLF buf with
  | none => simp [takeLine, hf] at h
  | some i =>
      have hlt : i < buf.length := findLF_lt hf
      have hf2 : findLF (buf ++ ext) = some i := findLF_append ext hf
      have hget : (buf ++ ext).get? (i - 1) = buf.get? (i - 1) :=
        List.get?_append (by omega)
      have htk : (buf ++ ext).take (i - 1) = buf.take (i - 1) :=
        List.take_append_of_le_length (by omega)
      simp only [takeLine, hf] at h
      simp only [takeLine, hf2, hget, htk]
      by_cases hc : 1 ≤ i ∧ buf.get? (i - 1) = some 13
      · rw [if_pos hc] at h
        rw [if_pos hc]
        cases h
        exact ⟨rfl, by omega, by omega⟩
      · rw [if_neg hc] at h
        exact absurd h (by simp)

/-- Scanning a malformed line is stable under appending bytes. -/
theorem takeLine_bad_stable {buf : List Nat} {n : Nat} (ext : List Nat)
    (h : takeLine buf = .bad n) :
    takeLine (buf ++ ext) = .bad n ∧ 1 ≤ n ∧ n ≤ buf.length := by
  cases hf : findLF buf with
  | none => simp [takeLine, hf] at h
  | some i =>
      have hlt : i < buf.length := findLF_lt hf
      have hf2 : findLF (buf ++ ext) = some i := findLF_append ext hf
      have hget : (buf ++ ext).get? (i - 1) = buf.get? (i - 1) :=
        List.get?_append (by omega)
      simp only [takeLine, hf] at h
      simp only [takeLine, hf2, hget]
      by_cases hc : 1 ≤ i ∧ buf.get? (i - 1) = some 13
      · rw [if_pos hc] at h
        exact absurd h (by simp)
      · rw [if_neg hc] at h
        rw [if_neg hc]
        cases h
        exact ⟨rfl, by omega, by omega⟩

/-- Line-phase steps are stable under appending bytes. -/
theorem lineStep_stable {s : PState} {buf : List Nat} {r : PState} {n : Nat}
    (ext : List Nat) (h : lineStep s buf = some (r, n)) :
    lineStep s (buf ++ ext) = some (r, n) ∧ 1 ≤ n ∧ n ≤ buf.length := by
  cases ht : takeLine buf with
  | more => simp [lineStep, ht] at h
  | bad m =>
      obtain ⟨h1, h2, h3⟩ := takeLine_bad_stable ext ht
      simp only [lineStep, ht] at h
      simp only [lineStep, h1]
      cases h
      exact ⟨rfl, h2, h3⟩
  | line l m =>
      obtain ⟨h1, h2, h3⟩ := takeLine_line_stable ext ht
      simp only [lineStep, ht] at h
      simp only [lineStep, h1]
      cases h
      exact ⟨rfl, h2, h3⟩

/-- Modelled from the spec: a step never consumes a byte it has not fully
classified, so a successful step is unchanged by appending further bytes,
and it consumes at least one and at most all present bytes. -/
theorem stepTok_stable {s : PState} {buf : List Nat} {r : PState} {n : Nat}
    (ext : List Nat) (h : stepTok s buf = some (r, n)) :
    stepTok s (buf ++ ext) = some (r, n) ∧ 1 ≤ n ∧ n ≤ buf.length := by
  obtain ⟨isR, ph, m, sk⟩ := s
  cases ph with
  | startLine => exact lineStep_stable ext h
  | fieldLines => exact lineStep_stable ext h
  | chunkHeader => exact lineStep_stable ext h
  | trailerLines => exact lineStep_stable ext h
  | bodyFixed k =>
      cases buf with
      | nil => exact absurd h (by simp [stepTok])
      | cons b rest =>
          simp only [stepTok, List.cons_append] at h ⊢
          cases h
          exact ⟨rfl, by omega, by simp⟩
  | chunkBody k =>
      cases buf with
      | nil => exact absurd h (by simp [stepTok])
      | cons b rest =>
          simp only [stepTok, List.cons_append] at h ⊢
          cases h
          exact ⟨rfl, by omega, by simp⟩
  | bodyToEof =>
      cases buf with
      | nil => exact absurd h (by simp [stepTok])
      | cons b rest =>
          simp only [stepTok, List.cons_append] at h ⊢
          cases h
          exact ⟨rfl, by omega, by simp⟩
  | chunkCRLF =>
      cases buf with
      | nil => exact absurd h (by simp [stepTok])
      | cons b rest =>
          simp only [stepTok, List.cons_append] at h ⊢
          by_cases hb : b = 13
          · simp only [hb, if_pos rfl] at h ⊢
            cases rest with
            | nil => exact absurd h (by simp)
            | cons c rest2 =>
                simp only [List.cons_append] at h ⊢
                by_cases hc : c = 10
                · simp only [hc, if_pos rfl] at h ⊢
                  cases h
                  exact ⟨rfl, by omega, by simp only [List.length_cons]; omega⟩
                · simp only [hc, if_neg hc] at h ⊢
                  cases h
                  exact ⟨rfl, by omega, by simp only [List.length_cons]; omega⟩
          · simp only [hb, if_neg hb] at h ⊢
            cases h
            exact ⟨rfl, by omega, by simp⟩
  | complete => exact absurd h (by simp [stepTok])
  | errored e => exact absurd h (by simp [stepTok])

/-- A stuck or terminal state is left unchanged by the loop, for any fuel. -/
theorem consumeGo_terminal {s : PState} {buf : List Nat}
    (h : stepTok s buf = none) : ∀ f, consumeGo f s buf = (s, buf) := by
  intro f
  cases f with
  | zero => rfl
  | succ f => simp [consumeGo, h]

/-- With enough fuel the loop runs until the step function is stuck. -/
theorem consumeGo_stop :
    ∀ (f : Nat) (s : PState) (buf : List Nat), buf.length < f →
      stepTok (consumeGo f s buf).1 (consumeGo f s buf).2 = none := by
  intro f
  induction f with
  | zero => intro s buf h; omega
  | succ f ih =>
      intro s buf h
      cases hst : stepTok s buf with
      | none => simpa [consumeGo, hst] using hst
      | some p =>
          obtain ⟨s1, n⟩ := p
          obtain ⟨-, h1, h2⟩ := stepTok_stable [] hst
          simp only [consumeGo, hst]
          exact ih s1 (buf.drop n) (by simp only [List.length_drop]; omega)

/-- The loop result does not depend on the fuel, once the fuel exceeds the
buffer length. -/
theorem consumeGo_fuel :
    ∀ (f1 f2 : Nat) (s : PState) (buf : List Nat),
      buf.length < f1 → buf.length < f2 →
      consumeGo f1 s buf = consumeGo f2 s buf := by
  intro f1
  induction f1 with
  | zero => intro f2 s buf h1 h2; omega
  | succ f1 ih =>
      intro f2 s buf h1 h2
      cases f2 with
      | zero => omega
      | succ f2 =>
          cases hst : stepTok s buf with
          | none => simp [consumeGo, hst]
          | some p =>
              obtain ⟨s1, n⟩ := p
              obtain ⟨-, hn1, hn2⟩ := stepTok_stable [] hst
              simp only [consumeGo, hst]
              exact ih f2 s1 (buf.drop n)
                (by simp only [List.length_drop]; omega)
                (by simp only [List.length_drop]; omega)

/-- Modelled from the spec: running the loop on an extended window is the
same as running it on the original window and then continuing from the
retained unconsumed tail with the extension appended — the no-partial-commit
property of the engine. -/
theorem consumeGo_append :
    ∀ (f : Nat) (s : PState) (buf ext : List Nat) (f2 g : Nat),
      buf.length < f → buf.length + ext.length < f2 →
      (consumeGo f s buf).2.length + ext.length < g →
      consumeGo f2 s (buf ++ ext) =
        consumeGo g (consumeGo f s buf).1 ((consumeGo f s buf).2 ++ ext) := by
  intro f
  induction f with
  | zero => intro s buf ext f2 g h1 h2 h3; omega
  | succ f ih =>
      intro s buf ext f2 g h1 h2 h3
      cases hst : stepTok s buf with
      | none =>
          rw [consumeGo_terminal hst]
          rw [consumeGo_terminal hst] at h3
          exact consumeGo_fuel f2 g s (buf ++ ext)
            (by simp only [List.length_append]; omega)
            (by simpa using h3)
      | some p =>
          obtain ⟨s1, n⟩ := p
          obtain ⟨hext, hn1, hn2⟩ := stepTok_stable ext hst
          cases f2 with
          | zero => omega
          | succ f2 =>
              have hdrop : (buf ++ ext).drop n = buf.drop n ++ ext :=
                List.drop_append_of_le_length hn2
              have hred : consumeGo (f + 1) s buf = consumeGo f s1 (buf.drop n) := by
                simp [consumeGo, hst]
              rw [hred] at h3 ⊢
              simp only [consumeGo, hext, hdrop]
              exact ih s1 (buf.drop n) ext f2 g
                (by simp only [List.length_drop]; omega)
                (by simp only [List.length_drop, List.length_append] at h2 ⊢; omega)
                h3

/-- Feeding fragments one at a time, retaining the unconsumed tail between
calls, reaches the same state and leftover as one consume call over the
concatenation. -/
theorem feedFrags_spec :
    ∀ (frags : List (List Nat)) (s : PState) (tail : List Nat),
      feedFrags s tail frags = consume s (tail ++ joinFrags frags) true := by
  intro frags
  induction frags with
  | nil => intro s tail; simp [feedFrags, joinFrags]
  | cons f fs ih =>
      intro s tail
      simp only [feedFrags, joinFrags, List.foldr_cons]
      rw [ih]
      show consume (consumeGo ((tail ++ f).length + 1) s (tail ++ f)).1
        ((consumeGo ((tail ++ f).length + 1) s (tail ++ f)).2 ++ joinFrags fs) true =
        consume s (tail ++ (f ++ joinFrags fs)) true
      have hassoc : tail ++ (f ++ joinFrags fs) = (tail ++ f) ++ joinFrags fs :=
        (List.append_assoc tail f (joinFrags fs)).symm
      rw [hassoc]
      unfold consume
      rw [consumeGo_append ((tail ++ f).length + 1) s (tail ++ f) (joinFrags fs)
        (((tail ++ f) ++ joinFrags fs).length + 1)
        ((consumeGo ((tail ++ f).length + 1) s (tail ++ f)).2.length +
          (joinFrags fs).length + 1)
        (by omega)
        (by simp only [List.length_append]; omega)
        (by omega)]
      rw [consumeGo_fuel
        ((consumeGo ((tail ++ f).length + 1) s (tail ++ f)).2.length +
          (joinFrags fs).length + 1)
        (((consumeGo ((tail ++ f).length + 1) s (tail ++ f)).2 ++ joinFrags fs).length + 1)
        _ _
        (by simp only [List.length_append]; omega)
        (by simp only [List.length_append]; omega)]

/-- Fragmentation invariance (claim C1): feeding any byte sequence to the
parser in a single consume call with end of stream produces exactly the same
parser state — header fields, body bytes delivered to the sink, outcome —
and the same unconsumed remainder as feeding it split at any byte boundaries
across multiple consume calls that retain the unconsumed tail, with end of
stream signalled after the last fragment.  This holds for every input, in
particular for every valid HTTP/1 message. -/
theorem fragmentation_invariance (isReq : Bool) (frags : List (List Nat)) :
    feedFrags (initState isReq) [] frags =
      consume (initState isReq) (joinFrags frags) true := by
  have h := feedFrags_spec frags (initState isReq) []
  rwa [List.nil_append] at h

/-- Run of the loop from a fixed-length body phase with `k + 1` bytes
remaining and a not-yet-finished sink holding `D`: either enough bytes are
present and the sink is finished exactly once, right after the last expected
byte was committed, or all supplied bytes are committed and the parser still
awaits the rest. -/
theorem bodyFixedGo :
    ∀ (bs : List Nat) (f k : Nat) (isReq : Bool) (m : Msg) (D : List Nat),
      bs.length < f →
      consumeGo f ⟨isReq, .bodyFixed k, m, ⟨D, 0, none⟩⟩ bs =
        if k + 1 ≤ bs.length then
          (⟨isReq, .complete, m,
            ⟨D ++ bs.take (k + 1), 1, some (D.length + (k + 1))⟩⟩, bs.drop (k + 1))
        else
          (⟨isReq, .bodyFixed (k - bs.length), m, ⟨D ++ bs, 0, none⟩⟩, []) := by
  intro bs
  induction bs with
  | nil =>
      intro f k isReq m D h
      rw [consumeGo_terminal (by simp [stepTok]) f]
      simp
  | cons b rest ih =>
      intro f k isReq m D h
      cases f with
      | zero => omega
      | succ f =>
          have hst : stepTok ⟨isReq, .bodyFixed k, m, ⟨D, 0, none⟩⟩ (b :: rest) =
              some (commitFixed ⟨isReq, .bodyFixed k, m, ⟨D, 0, none⟩⟩ k b, 1) := by
            simp [stepTok]
          simp only [consumeGo, hst, List.drop_succ_cons, List.drop_zero]
          cases k with
          | zero =>
              have hcf : commitFixed ⟨isReq, .bodyFixed 0, m, ⟨D, 0, none⟩⟩ 0 b =
                  ⟨isReq, .complete, m, ⟨D ++ [b], 1, some (D.length + 1)⟩⟩ := by
                simp [commitFixed, Sink.commitBytes, Sink.finish]
              rw [hcf, consumeGo_terminal (by simp [stepTok]) f]
              rw [if_pos (by simp only [List.length_cons]; omega)]
              simp
          | succ j =>
              have hcf : commitFixed ⟨isReq, .bodyFixed (j + 1), m, ⟨D, 0, none⟩⟩ (j + 1) b =
                  ⟨isReq, .bodyFixed j, m, ⟨D ++ [b], 0, none⟩⟩ := by
                simp [commitFixed, Sink.commitBytes]
              rw [hcf, ih f j isReq m (D ++ [b]) (by simp only [List.length_cons] at h; omega)]
              by_cases hc : j + 1 ≤ rest.length
              · rw [if_pos hc, if_pos (by simp only [List.length_cons]; omega)]
                have h1 : D ++ [b] ++ rest.take (j + 1) = D ++ (b :: rest.take (j + 1)) := by
                  simp
                have h2 : (D ++ [b]).length + (j + 1) = D.length + (j + 1 + 1) := by
                  simp only [List.length_append, List.length_cons, List.length_nil]
                  omega
                rw [List.take_succ_cons, h1, h2]
              · rw [if_neg hc, if_neg (by simp only [List.length_cons]; omega)]
                have h1 : D ++ [b] ++ rest = D ++ (b :: rest) := by simp
                have h2 : j - rest.length = j + 1 - (b :: rest).length := by
                  simp only [List.length_cons]
                  omega
                rw [h1, h2]

/-- State of the parser right after the framing decision selected
fixed-length framing with `n` expected body bytes, with a fresh sink. -/
def atBody (isReq : Bool) (m : Msg) (n : Nat) : PState :=
  enterBody (.fixedLen n) ⟨isReq, .fieldLines, m, Sink.empty⟩

/-- Content-length exactness (claim C2): under fixed-length framing with `n`
expected bytes, if the stream supplies at least `n` bytes then the sink
receives exactly the first `n` of them, `finish()` is called exactly once and
only after exactly `n` bytes were committed, and the message completes; if
end of stream comes first, the parser reports `unexpected-body-end` and
`finish()` is never called. -/
theorem content_length_exactness (isReq : Bool) (m : Msg) (n : Nat) (bs : List Nat) :
    (n ≤ bs.length →
      consume (atBody isReq m n) bs true =
        (⟨isReq, .complete, m, ⟨bs.take n, 1, some n⟩⟩, bs.drop n)) ∧
    (bs.length < n →
      consume (atBody isReq m n) bs true =
        (⟨isReq, .errored .unexpectedBodyEnd, m, ⟨bs, 0, none⟩⟩, [])) := by
  cases n with
  | zero =>
      have hA : atBody isReq m 0 = ⟨isReq, .complete, m, ⟨[], 1, some 0⟩⟩ := by
        simp [atBody, enterBody, Sink.empty, Sink.finish]
      rw [hA]
      constructor
      · intro hn
        show (finalizeEof (consumeGo (bs.length + 1)
            ⟨isReq, .complete, m, ⟨[], 1, some 0⟩⟩ bs).1,
          (consumeGo (bs.length + 1) ⟨isReq, .complete, m, ⟨[], 1, some 0⟩⟩ bs).2) = _
        rw [consumeGo_terminal (by simp [stepTok]) (bs.length + 1)]
        simp [finalizeEof]
      · intro hn
        omega
  | succ k =>
      have hA : atBody isReq m (k + 1) = ⟨isReq, .bodyFixed k, m, ⟨[], 0, none⟩⟩ := by
        simp [atBody, enterBody, Sink.empty]
      rw [hA]
      constructor
      · intro hn
        show (finalizeEof (consumeGo (bs.length + 1)
            ⟨isReq, .bodyFixed k, m, ⟨[], 0, none⟩⟩ bs).1,
          (consumeGo (bs.length + 1) ⟨isReq, .bodyFixed k, m, ⟨[], 0, none⟩⟩ bs).2) = _
        rw [bodyFixedGo bs (bs.length + 1) k isReq m [] (by omega), if_pos hn]
        simp [finalizeEof]
      · intro hn
        show (finalizeEof (consumeGo (bs.length + 1)
            ⟨isReq, .bodyFixed k, m, ⟨[], 0, none⟩⟩ bs).1,
          (consumeGo (bs.length + 1) ⟨isReq, .bodyFixed k, m, ⟨[], 0, none⟩⟩ bs).2) = _
        rw [bodyFixedGo bs (bs.length + 1) k isReq m [] (by omega), if_neg (by omega)]
        simp [finalizeEof, toErr]

/-- Witness for claim C2 at a concrete input: three bytes supplied against
`Content-Length: 2` commit exactly two bytes, finish once after two bytes,
and leave one byte unconsumed. -/
theorem content_length_exactness_witness :
    consume (atBody true Msg.empty 2) [7, 8, 9] true =
      (⟨true, .complete, Msg.empty, ⟨[7, 8], 1, some 2⟩⟩, [9]) :=
  (content_length_exactness true Msg.empty 2 [7, 8, 9]).1 (by decide)

/-- Idempotent non-consumption on error (claim C3): once the parser is in the
errored state, every consume call — for every window and end-of-stream flag —
leaves the state unchanged, consumes zero bytes, and reports the stored error. -/
theorem errored_absorbing (s : PState) (buf : List Nat) (eof : Bool) (e : Err)
    (h : s.phase = .errored e) :
    consume s buf eof = (s, buf) ∧ outcomeOf (consume s buf eof).1 = .error e := by
  have hst : stepTok s buf = none := by
    obtain ⟨isR, ph, m, sk⟩ := s
    cases h
    simp [stepTok]
  have hfin : finalizeEof s = s := by
    obtain ⟨isR, ph, m, sk⟩ := s
    cases h
    simp [finalizeEof]
  have hc : consume s buf eof = (s, buf) := by
    unfold consume
    rw [consumeGo_terminal hst (buf.length + 1)]
    cases eof <;> simp [hfin]
  refine ⟨hc, ?_⟩
  rw [hc]
  obtain ⟨isR, ph, m, sk⟩ := s
  cases h
  simp [outcomeOf]

/-- Witness for claim C3 at a concrete errored state and window. -/
theorem errored_absorbing_witness :
    consume (toErr (initState true) .badVersion) [1, 2] true =
        (toErr (initState true) .badVersion, [1, 2]) ∧
      outcomeOf (consume (toErr (initState true) .badVersion) [1, 2] true).1 =
        .error .badVersion :=
  errored_absorbing (toErr (initState true) .badVersion) [1, 2] true .badVersion (by rfl)

/-- Byte sequence of the chunked body `4\r\nWiki\r\n5\r\npedia\r\n0\r\n\r\n`. -/
def wikiChunked : List Nat :=
  [52, 13, 10, 87, 105, 107, 105, 13, 10, 53, 13, 10, 112, 101, 100, 105, 97,
   13, 10, 48, 13, 10, 13, 10]

/-- Byte sequence of the payload `Wikipedia`. -/
def wikipediaBytes : List Nat := [87, 105, 107, 105, 112, 101, 100, 105, 97]

/-- Chunked round-trip (claim C4): feeding the chunk-encoded body to a parser
in the chunked-framing body phase delivers exactly the payload `Wikipedia` to
the sink — none of the chunk-size lines, chunk CRLFs or terminating framing
bytes are forwarded — finishes the sink once, and completes the message
consuming all input. -/
theorem chunked_roundtrip :
    consume (enterBody .chunked (initState true)) wikiChunked true =
      (⟨true, .complete, Msg.empty, ⟨wikipediaBytes, 1, some 9⟩⟩, []) := by
  decide

/-- Fields of a header that carries chunked transfer-encoding together with
two conflicting Content-Length values 1 and 2. -/
def cexFields : List (List Nat × List Nat) :=
  [(teName, chunkedTok), (clName, [49]), (clName, [50])]

/-- Counterexample to claim C5 as stated: a header section containing two
Content-Length fields with different numeric values (1 and 2) on which the
body-framing decision does not yield bad-content-length — the header also
carries `Transfer-Encoding: chunked`, which takes precedence, so the
conflicting lengths are ignored and chunked framing is accepted. -/
theorem duplicate_content_length_cex :
    framingOf true cexFields = .ok .chunked ∧
      framingOf true cexFields ≠ .error .badContentLength := by
  have he : framingOf true cexFields = .ok .chunked := by rfl
  refine ⟨he, ?_⟩
  rw [he]
  exact fun h => Except.noConfusion h

/-- Amended claim C5: for every header section whose framing is not selected
as chunked by Transfer-Encoding and which contains exactly two well-formed
Content-Length fields, differing numeric values yield bad-content-length at
the body-framing decision, and numerically identical values are accepted with
fixed-length framing. -/
theorem duplicate_content_length (isReq : Bool)
    (fields : List (List Nat × List Nat)) (v1 v2 : List Nat) (n1 n2 : Nat)
    (hTE : isChunkedTE fields = false) (hcl : clValues fields = [v1, v2])
    (h1 : parseDec v1 = some n1) (h2 : parseDec v2 = some n2) :
    (n1 ≠ n2 → framingOf isReq fields = .error .badContentLength) ∧
    (n1 = n2 → framingOf isReq fields = .ok (.fixedLen n1)) := by
  constructor
  · intro hne
    have hall : [v2].all (fun w => parseDec w = some n1) = false := by
      simp only [List.all_cons, List.all_nil, Bool.and_true, decide_eq_false_iff_not]
      rw [h2]
      exact fun hx => hne (Option.some.inj hx).symm
    simp [framingOf, hTE, hcl, h1, hall]
  · intro heq
    subst heq
    have hall : [v2].all (fun w => parseDec w = some n1) = true := by
      simp only [List.all_cons, List.all_nil, Bool.and_true, decide_eq_true_eq]
      exact h2
    simp [framingOf, hTE, hcl, h1, hall]

/-- Witness for the amended claim C5 at concrete headers: Content-Length
values 1 and 2 are rejected with bad-content-length. -/
theorem duplicate_content_length_witness :
    framingOf true [(clName, [49]), (clName, [50])] = .error .badContentLength :=
  (duplicate_content_length true [(clName, [49]), (clName, [50])] [49] [50] 1 2
    (by decide) (by decide) (by decide) (by decide)).1 (by decide)

/-- Byte sequence of `GET /x HTTP/1.1\r\nHost: a\r\nContent-Length: 0\r\n\r\n`. -/
def exReq : List Nat :=
  [71, 69, 84, 32, 47, 120, 32, 72, 84, 84, 80, 47, 49, 46, 49, 13, 10,
   72, 111, 115, 116, 58, 32, 97, 13, 10,
   67, 111, 110, 116, 101, 110, 116, 45, 76, 101, 110, 103, 116, 104, 58, 32, 48, 13, 10,
   13, 10]

/-- End-to-end request scenario (claim C6): the example request parses to
method `GET`, target `/x`, version 1.1 (encoded 11), exactly the fields
`Host: a` and `Content-Length: 0` in that order, an empty body with the sink
finished once, outcome message-complete, and no leftover bytes. -/
theorem end_to_end_request :
    consume (initState true) exReq true =
        (⟨true, .complete,
          ⟨[71, 69, 84], [47, 120], 0, [], 11,
            [([72, 111, 115, 116], [97]),
             ([67, 111, 110, 116, 101, 110, 116, 45, 76, 101, 110, 103, 116, 104], [48])]⟩,
          ⟨[], 1, some 0⟩⟩, []) ∧
      outcomeOf (consume (initState true) exReq true).1 = .messageComplete := by
  constructor
  · decide
  · decide

/-- Remaining-length counter of `maybe_begin_body` is untouched. -/
theorem maybeBeginBody_remain (p : MP) : p.maybeBeginBody.remain = p.remain := by
  unfold MP.maybeBeginBody
  split <;> rfl

/-- Consumed-byte count of `maybe_begin_body` is untouched. -/
theorem maybeBeginBody_consumed (p : MP) : p.maybeBeginBody.consumed = p.consumed := by
  unfold MP.maybeBeginBody
  split <;> rfl

/-- Sink of `maybe_begin_body` is untouched. -/
theorem maybeBeginBody_sink (p : MP) : p.maybeBeginBody.sink = p.sink := by
  unfold MP.maybeBeginBody
  split <;> rfl

/-- Prepared-window sizing (claim C7): under the preconditions `limit > 0`
and `remain() > 0`, `prepare(dynabuf, limit)` requests from the sink a
writable window of exactly `min(remain(), limit)` bytes — never more than
either bound — and the internal `on_prepare_body(limit)` requests exactly
`clamp(remain(), limit)` = `min(remain(), limit)` bytes as well. -/
theorem prepare_window_size (p : MP) (limit : Nat)
    (h1 : 0 < limit) (h2 : 0 < p.remain) :
    (MP.prepare p limit).2 = min p.remain limit ∧
    (MP.prepare p limit).1.sink.preps = p.sink.preps ++ [min p.remain limit] ∧
    (MP.prepare p limit).2 ≤ p.remain ∧
    (MP.prepare p limit).2 ≤ limit ∧
    (MP.onPrepareBody p limit).2 = min p.remain limit ∧
    (MP.onPrepareBody p limit).1.sink.preps = p.sink.preps ++ [min p.remain limit] := by
  refine ⟨?_, ?_, ?_, ?_, rfl, rfl⟩
  · show min p.maybeBeginBody.remain limit = min p.remain limit
    rw [maybeBeginBody_remain]
  · show (p.maybeBeginBody.sink.prep (min p.maybeBeginBody.remain limit)).preps = _
    rw [maybeBeginBody_remain, maybeBeginBody_sink]
    rfl
  · show min p.maybeBeginBody.remain limit ≤ p.remain
    rw [maybeBeginBody_remain]
    exact Nat.min_le_left _ _
  · show min p.maybeBeginBody.remain limit ≤ limit
    rw [maybeBeginBody_remain]
    exact Nat.min_le_right _ _

/-- Witness for claim C7 at a concrete parser state and limit. -/
theorem prepare_window_size_witness :
    (MP.prepare ⟨5, 0, false, ⟨[], [], []⟩⟩ 3).2 = min 5 3 ∧
    (MP.prepare ⟨5, 0, false, ⟨[], [], []⟩⟩ 3).1.sink.preps = [] ++ [min 5 3] ∧
    (MP.prepare ⟨5, 0, false, ⟨[], [], []⟩⟩ 3).2 ≤ 5 ∧
    (MP.prepare ⟨5, 0, false, ⟨[], [], []⟩⟩ 3).2 ≤ 3 ∧
    (MP.onPrepareBody ⟨5, 0, false, ⟨[], [], []⟩⟩ 3).2 = min 5 3 ∧
    (MP.onPrepareBody ⟨5, 0, false, ⟨[], [], []⟩⟩ 3).1.sink.preps = [] ++ [min 5 3] :=
  prepare_window_size ⟨5, 0, false, ⟨[], [], []⟩⟩ 3 (by decide) (by decide)

/-- Monotone remaining-length counter (claim C8): `commit(n)` under its
precondition `n ≤ remain()` decreases the counter by exactly `n` and never
drives it below zero; `copy` decreases it by exactly the number of bytes it
transfers; and no operation — `commit`, `copy`, `prepare`, `on_prepare_body`
— ever increases it. -/
theorem remain_monotone :
    (∀ (p : MP) (n : Nat), n ≤ p.remain → (MP.commit p n).remain + n = p.remain) ∧
    (∀ (p : MP) (n : Nat), (MP.commit p n).remain ≤ p.remain) ∧
    (∀ (p : MP) (d : List Nat),
      (MP.copy p d).1.remain + min d.length p.remain = p.remain) ∧
    (∀ (p : MP) (d : List Nat), (MP.copy p d).1.remain ≤ p.remain) ∧
    (∀ (p : MP) (limit : Nat), (MP.prepare p limit).1.remain = p.remain) ∧
    (∀ (p : MP) (limit : Nat), (MP.onPrepareBody p limit).1.remain = p.remain) := by
  have hcopy : ∀ (p : MP) (d : List Nat),
      (MP.copy p d).1.remain + min d.length p.remain = p.remain := by
    intro p d
    simp only [MP.copy, maybeBeginBody_remain]
    by_cases h : min d.length p.remain = 0
    · rw [if_pos h, h, maybeBeginBody_remain]
      omega
    · rw [if_neg h]
      show p.remain - min d.length p.remain + min d.length p.remain = p.remain
      exact Nat.sub_add_cancel (Nat.min_le_right _ _)
  refine ⟨?_, ?_, hcopy, ?_, ?_, ?_⟩
  · intro p n h
    simp only [MP.commit, MP.engineConsume]
    omega
  · intro p n
    simp only [MP.commit, MP.engineConsume]
    omega
  · intro p d
    have := hcopy p d
    omega
  · intro p limit
    show p.maybeBeginBody.remain = p.remain
    exact maybeBeginBody_remain p
  · intro p limit
    rfl

/-- Witness for claim C8 at a concrete state: committing 3 of 5 remaining
bytes leaves exactly 2. -/
theorem remain_monotone_witness :
    (MP.commit ⟨5, 0, true, ⟨[], [], []⟩⟩ 3).remain + 3 = 5 :=
  remain_monotone.1 ⟨5, 0, true, ⟨[], [], []⟩⟩ 3 (by decide)

/-- Zero-size copy is a no-op (claim C9): when
`min(dynabuf.size(), remain())` is zero, `copy` returns right after
`maybe_begin_body` without calling `prepare` or `commit` on the sink, without
consuming bytes from the dynamic buffer, and without changing the engine's
consumed-byte count or remaining-length counter. -/
theorem copy_zero_noop (p : MP) (d : List Nat)
    (h : min d.length p.remain = 0) :
    MP.copy p d = (p.maybeBeginBody, d) ∧
    (MP.copy p d).1.sink = p.sink ∧
    (MP.copy p d).1.remain = p.remain ∧
    (MP.copy p d).1.consumed = p.consumed ∧
    (MP.copy p d).2 = d := by
  have hc : MP.copy p d = (p.maybeBeginBody, d) := by
    simp only [MP.copy, maybeBeginBody_remain]
    rw [if_pos h]
  refine ⟨hc, ?_, ?_, ?_, ?_⟩ <;> rw [hc]
  · exact maybeBeginBody_sink p
  · exact maybeBeginBody_remain p
  · exact maybeBeginBody_consumed p

/-- Witness for claim C9 on a nonempty buffer with zero bytes remaining. -/
theorem copy_zero_noop_witness :
    MP.copy ⟨0, 7, false, ⟨[1], [2], [3]⟩⟩ [4, 5] =
        (MP.maybeBeginBody ⟨0, 7, false, ⟨[1], [2], [3]⟩⟩, [4, 5]) ∧
      (MP.copy ⟨0, 7, false, ⟨[1], [2], [3]⟩⟩ [4, 5]).1.sink = ⟨[1], [2], [3]⟩ ∧
      (MP.copy ⟨0, 7, false, ⟨[1], [2], [3]⟩⟩ [4, 5]).1.remain = 0 ∧
      (MP.copy ⟨0, 7, false, ⟨[1], [2], [3]⟩⟩ [4, 5]).1.consumed = 7 ∧
      (MP.copy ⟨0, 7, false, ⟨[1], [2], [3]⟩⟩ [4, 5]).2 = [4, 5] :=
  copy_zero_noop ⟨0, 7, false, ⟨[1], [2], [3]⟩⟩ [4, 5] (by decide)

set_option maxRecDepth 4096 in
/-- Digit table correctness (claim C10): for every byte value `c` in 0..255,
`s_digitTable[c]` equals `c - 0x30` when `0x30 ≤ c ≤ 0x39` and `0xFF`
otherwise; equivalently, `s_digitTable[c] ≤ 9` holds exactly when `c` is an
ASCII decimal digit. -/
theorem digit_table_spec :
    ∀ c : Fin 256,
      s_digitTable.get? c.val =
          some (if 48 ≤ c.val ∧ c.val ≤ 57 then c.val - 48 else 255) ∧
        ((s_digitTable.get? c.val).getD 255 ≤ 9 ↔ (48 ≤ c.val ∧ c.val ≤ 57)) := by
  decide
